import Mathlib

/-!
# Co-membership similarity of two cluster-label vectors

A shallow embedding of `similarityRcpp` (`K-Means Opt/R/similarity.cpp`) and a
verification of its specification.

Modelling conventions.

* A label is a C++ `double`.  Only `operator==` is ever applied to labels, so a
  label is modelled by `Dbl`: a finite value (a rational, which covers every
  finite double), negative zero, the two infinities and NaN, with `Dbl.eq` the
  IEEE-754 comparison (`NaN == x` is false for every `x`, `-0 == +0` is true).
* `NumericVector::operator[]` is unchecked.  A read at an index outside the
  vector is undefined behaviour; it is modelled by `none`, so a run is an
  `Option`.
* The three accumulators and the returned quotient are read over exact
  numbers: the accumulators are rationals, the result is a real.  `int q` is
  the length of `l1` (vectors of fewer than `2^31` elements).
-/

namespace Similarity

/-- A C++ `double` used as a cluster label. -/
inductive Dbl where
  | fin (x : ℚ)
  | negZero
  | posInf
  | negInf
  | nan
  deriving DecidableEq

/-- The comparison `a == b` of two doubles. -/
def Dbl.eq : Dbl → Dbl → Bool
  | .fin x, .fin y => decide (x = y)
  | .fin x, .negZero => decide (x = 0)
  | .negZero, .fin y => decide (y = 0)
  | .negZero, .negZero => true
  | .posInf, .posInf => true
  | .negInf, .negInf => true
  | _, _ => false

/-- The conversion of a C++ `bool` to `double`: `true` is `1.0`, `false` is `0.0`. -/
def boolToDouble (b : Bool) : ℚ := if b then 1 else 0

/-- The three running sums `dot_c1c1`, `dot_c2c2`, `dot_c1c2`. -/
@[ext] structure Sums where
  dot_c1c1 : ℚ
  dot_c2c2 : ℚ
  dot_c1c2 : ℚ
  deriving DecidableEq

/-- The body of the inner loop (source lines 30-44) at indices `i`, `j`: four
unchecked reads, two comparisons, three updates. -/
def loopBody (l1 l2 : List Dbl) (i j : Nat) (s : Sums) : Option Sums := do
  let l1_i ← l1[i]?
  let l1_j ← l1[j]?
  let l2_i ← l2[i]?
  let l2_j ← l2[j]?
  let l1_same : ℚ := boolToDouble (Dbl.eq l1_i l1_j)
  let l2_same : ℚ := boolToDouble (Dbl.eq l2_i l2_j)
  pure { dot_c1c1 := s.dot_c1c1 + 2 * l1_same
         dot_c2c2 := s.dot_c2c2 + 2 * l2_same
         dot_c1c2 := s.dot_c1c2 + 2 * l1_same * l2_same }

/-- The inner loop `for (int j = i+1; j < q; j++)` around a loop body: started
at `j` with `n` iterations left to run. -/
def innerLoop (body : Nat → Nat → Sums → Option Sums) (i : Nat) :
    Nat → Nat → Sums → Option Sums
  | 0, _, s => some s
  | n + 1, j, s => (body i j s).bind (innerLoop body i n (j + 1))

/-- The outer loop `for (int i = 0; i < q; i++)`: started at `i` with `n`
iterations left to run; iteration `i` runs `j` from `i + 1` up to `q`, that is
`q - (i + 1)` times. -/
def outerLoop (body : Nat → Nat → Sums → Option Sums) (q : Nat) :
    Nat → Nat → Sums → Option Sums
  | 0, _, s => some s
  | n + 1, i, s =>
    (innerLoop body i (q - (i + 1)) (i + 1) s).bind (outerLoop body q n (i + 1))

/-- The sums accumulated by the double loop of `similarityRcpp` (source lines
18-46), with `q` the length of `l1` and the three sums started at `0`; `none`
when some read falls outside a vector. -/
def dotProducts (l1 l2 : List Dbl) : Option Sums :=
  let q := l1.length
  outerLoop (loopBody l1 l2) q q 0 { dot_c1c1 := 0, dot_c2c2 := 0, dot_c1c2 := 0 }

/-- The divisor of the returned expression (source line 49):
`std::max(1.0, pow(dot_c1c1 * dot_c2c2, 0.5))`. -/
noncomputable def divisor (s : Sums) : ℝ :=
  max 1 (((s.dot_c1c1 : ℝ) * (s.dot_c2c2 : ℝ)) ^ (0.5 : ℝ))

/-- The returned expression (source line 49):
`dot_c1c2 / std::max(1.0, pow(dot_c1c1 * dot_c2c2, 0.5))`. -/
noncomputable def correlation (s : Sums) : ℝ :=
  (s.dot_c1c2 : ℝ) / divisor s

/-- The function `similarityRcpp`: the double loop, then the returned
expression; `none` when the loop read outside a vector. -/
noncomputable def similarityRcpp (l1 l2 : List Dbl) : Option ℝ :=
  (dotProducts l1 l2).map correlation

/-! ## Co-membership and the reference quantities of the specification -/

/-- Whether the pair of positions `(i, j)` is co-membered in `l`: both positions
exist and carry labels that compare equal. -/
def comember (l : List Dbl) (i j : Nat) : Bool :=
  match l[i]?, l[j]? with
  | some a, some b => Dbl.eq a b
  | _, _ => false

/-- The 0/1 indicator of co-membership, as the number the loop adds up. -/
def ind (l : List Dbl) (i j : Nat) : ℚ := boolToDouble (comember l i j)

/-- The sum of `a i j` over the index pairs `i < j < q` that the double loop visits. -/
def upperSum (q : Nat) (a : Nat → Nat → ℚ) : ℚ :=
  ∑ i in Finset.range q, ∑ j in Finset.Ico (i + 1) q, a i j

/-- The number of ordered index pairs `(i, j)` with `i ≠ j`, both in `[0, q)`,
that satisfy `p`. -/
def orderedPairCount (q : Nat) (p : Nat → Nat → Bool) : Nat :=
  ((Finset.range q ×ˢ Finset.range q).filter (fun x => x.1 ≠ x.2 ∧ p x.1 x.2 = true)).card

/-- The full-matrix reference of the specification: with `N11`, `N22`, `N12`
the numbers of ordered pairs of distinct positions co-membered in `l1`, in
`l2` and in both, the value `N12 / max(1, sqrt(N11 * N22))`. -/
noncomputable def fullMatrixSimilarity (l1 l2 : List Dbl) : ℝ :=
  let q := l1.length
  let N11 := orderedPairCount q (comember l1)
  let N22 := orderedPairCount q (comember l2)
  let N12 := orderedPairCount q (fun i j => comember l1 i j && comember l2 i j)
  (N12 : ℝ) / max 1 (Real.sqrt ((N11 : ℝ) * (N22 : ℝ)))

/-! ## Example inputs -/

/-- The label vector `[1, 1, 2, 2]`. -/
def v1122 : List Dbl := [.fin 1, .fin 1, .fin 2, .fin 2]

/-- The label vector `[1, 2, 1, 2]`. -/
def v1212 : List Dbl := [.fin 1, .fin 2, .fin 1, .fin 2]

/-- The label vector `[1, 2, 3, 4]`. -/
def v1234 : List Dbl := [.fin 1, .fin 2, .fin 3, .fin 4]

/-- The label vector `[1, 1, 2]`. -/
def v112 : List Dbl := [.fin 1, .fin 1, .fin 2]

/-- The relabeling that exchanges the label `1` and NaN and keeps every other
label; it is its own inverse. -/
def swapNaNOne : Dbl → Dbl
  | .nan => .fin 1
  | .fin x => if x = 1 then .nan else .fin x
  | d => d

/-- The relabeling that doubles every finite label and keeps the others. -/
def doubleLabel : Dbl → Dbl
  | .fin x => .fin (2 * x)
  | d => d

/-! ## Guarded division, the loop invariant, reordering -/

/-- Division that fails on a zero divisor instead of producing `x / 0`. -/
noncomputable def guardedDiv (x y : ℝ) : Option ℝ :=
  if y = 0 then none else some (x / y)

/-- The invariant of the double loop: the three sums are non-negative and the
cross sum is at most the smaller of the two self sums. -/
def SumsInv (s : Sums) : Prop :=
  0 ≤ s.dot_c1c2 ∧ 0 ≤ s.dot_c1c1 ∧ 0 ≤ s.dot_c2c2 ∧ s.dot_c1c2 ≤ min s.dot_c1c1 s.dot_c2c2

instance (s : Sums) : Decidable (SumsInv s) := by
  unfold SumsInv
  infer_instance

/-- The vector `l` of length `q` reordered by the permutation `σ` of `[0, q)`:
position `k` of the result carries the label at position `σ k` of `l`. -/
def permute {q : Nat} (σ : Equiv.Perm (Fin q)) (l : List Dbl) (h : l.length = q) : List Dbl :=
  List.ofFn (fun k : Fin q => l.get (Fin.cast h.symm (σ k)))

/-! ## The double loop in closed form -/

theorem Dbl.eq_swap (a b : Dbl) : Dbl.eq a b = Dbl.eq b a := by
  cases a <;> cases b <;> simp [Dbl.eq, eq_comm]

theorem comember_comm (l : List Dbl) (i j : Nat) : comember l i j = comember l j i := by
  unfold comember
  cases l[i]? <;> cases l[j]? <;> simp [Dbl.eq_swap]

theorem loopBody_eq (l1 l2 : List Dbl) (i j : Nat) (s : Sums)
    (hi1 : i < l1.length) (hj1 : j < l1.length) (hi2 : i < l2.length) (hj2 : j < l2.length) :
    loopBody l1 l2 i j s = some
      { dot_c1c1 := s.dot_c1c1 + 2 * ind l1 i j
        dot_c2c2 := s.dot_c2c2 + 2 * ind l2 i j
        dot_c1c2 := s.dot_c1c2 + 2 * ind l1 i j * ind l2 i j } := by
  simp [loopBody, ind, comember, List.getElem?_eq_getElem, hi1, hj1, hi2, hj2]

theorem innerLoop_eq (l1 l2 : List Dbl) (i : Nat) (hi1 : i < l1.length) (hi2 : i < l2.length) :
    ∀ (n j : Nat) (s : Sums), j + n ≤ l1.length → j + n ≤ l2.length →
      innerLoop (loopBody l1 l2) i n j s = some
        { dot_c1c1 := s.dot_c1c1 + ∑ k in Finset.range n, 2 * ind l1 i (j + k)
          dot_c2c2 := s.dot_c2c2 + ∑ k in Finset.range n, 2 * ind l2 i (j + k)
          dot_c1c2 := s.dot_c1c2 + ∑ k in Finset.range n, 2 * ind l1 i (j + k) * ind l2 i (j + k) } := by
  intro n
  induction n with
  | zero => intro j s _ _; simp [innerLoop]
  | succ n ih =>
    intro j s h1 h2
    rw [innerLoop, loopBody_eq l1 l2 i j s hi1 (by omega) hi2 (by omega)]
    simp only [Option.some_bind]
    rw [ih (j + 1) _ (by omega) (by omega)]
    simp only [Finset.sum_range_succ', Nat.add_zero, add_assoc, Nat.add_comm 1, Nat.add_assoc]
    congr 1
    ext <;> simp only <;> ring

theorem innerLoop_Ico (l1 l2 : List Dbl) (q i : Nat) (s : Sums)
    (hi : i < q) (h1 : q ≤ l1.length) (h2 : q ≤ l2.length) :
    innerLoop (loopBody l1 l2) i (q - (i + 1)) (i + 1) s = some
      { dot_c1c1 := s.dot_c1c1 + ∑ j in Finset.Ico (i + 1) q, 2 * ind l1 i j
        dot_c2c2 := s.dot_c2c2 + ∑ j in Finset.Ico (i + 1) q, 2 * ind l2 i j
        dot_c1c2 := s.dot_c1c2 + ∑ j in Finset.Ico (i + 1) q, 2 * ind l1 i j * ind l2 i j } := by
  rw [innerLoop_eq l1 l2 i (by omega) (by omega) _ _ _ (by omega) (by omega)]
  simp only [Finset.sum_Ico_eq_sum_range]

theorem outerLoop_eq (l1 l2 : List Dbl) (q : Nat) (h1 : q ≤ l1.length) (h2 : q ≤ l2.length) :
    ∀ (n i : Nat) (s : Sums), i + n ≤ q →
      outerLoop (loopBody l1 l2) q n i s = some
        { dot_c1c1 := s.dot_c1c1 +
            ∑ m in Finset.range n, ∑ j in Finset.Ico (i + m + 1) q, 2 * ind l1 (i + m) j
          dot_c2c2 := s.dot_c2c2 +
            ∑ m in Finset.range n, ∑ j in Finset.Ico (i + m + 1) q, 2 * ind l2 (i + m) j
          dot_c1c2 := s.dot_c1c2 +
            ∑ m in Finset.range n, ∑ j in Finset.Ico (i + m + 1) q,
              2 * ind l1 (i + m) j * ind l2 (i + m) j } := by
  intro n
  induction n with
  | zero => intro i s _; simp [outerLoop]
  | succ n ih =>
    intro i s h
    rw [outerLoop, innerLoop_Ico l1 l2 q i s (by omega) h1 h2]
    simp only [Option.some_bind]
    rw [ih (i + 1) _ (by omega)]
    simp only [Finset.sum_range_succ', Nat.add_zero, Nat.add_comm 1, Nat.add_assoc]
    congr 1
    ext <;> simp only <;> ring

/-- Closed form of the double loop when `l2` is at least as long as `l1`: every
read is in bounds and each sum is the sum of its increments over `i < j < q`. -/
theorem dotProducts_eq (l1 l2 : List Dbl) (h : l1.length ≤ l2.length) :
    dotProducts l1 l2 = some
      { dot_c1c1 := upperSum l1.length (fun i j => 2 * ind l1 i j)
        dot_c2c2 := upperSum l1.length (fun i j => 2 * ind l2 i j)
        dot_c1c2 := upperSum l1.length (fun i j => 2 * ind l1 i j * ind l2 i j) } := by
  unfold dotProducts
  simp only
  rw [outerLoop_eq l1 l2 l1.length le_rfl h _ _ _ (by omega)]
  simp [upperSum]

theorem divisor_eq_sqrt (s : Sums) :
    divisor s = max 1 (Real.sqrt ((s.dot_c1c1 : ℝ) * (s.dot_c2c2 : ℝ))) := by
  have h : (0.5 : ℝ) = 1 / 2 := by norm_num
  rw [divisor, h, ← Real.sqrt_eq_rpow]

theorem correlation_eq_sqrt (s : Sums) :
    correlation s =
      (s.dot_c1c2 : ℝ) / max 1 (Real.sqrt ((s.dot_c1c1 : ℝ) * (s.dot_c2c2 : ℝ))) := by
  rw [correlation, divisor_eq_sqrt]

theorem divisor_zero : divisor { dot_c1c1 := 0, dot_c2c2 := 0, dot_c1c2 := 0 } = 1 := by
  simp [divisor_eq_sqrt]

theorem boolToDouble_nonneg (b : Bool) : 0 ≤ boolToDouble b := by
  cases b <;> simp [boolToDouble]

theorem boolToDouble_le_one (b : Bool) : boolToDouble b ≤ 1 := by
  cases b <;> simp [boolToDouble]

theorem boolToDouble_mul_self (b : Bool) : boolToDouble b * boolToDouble b = boolToDouble b := by
  cases b <;> simp [boolToDouble]

theorem ind_nonneg (l : List Dbl) (i j : Nat) : 0 ≤ ind l i j := boolToDouble_nonneg _

theorem ind_le_one (l : List Dbl) (i j : Nat) : ind l i j ≤ 1 := boolToDouble_le_one _

theorem ind_comm (l : List Dbl) (i j : Nat) : ind l i j = ind l j i := by
  simp only [ind, comember_comm l i j]

theorem upperSum_nonneg (q : Nat) (a : Nat → Nat → ℚ) (h : ∀ i j, i < j → j < q → 0 ≤ a i j) :
    0 ≤ upperSum q a := by
  unfold upperSum
  refine Finset.sum_nonneg fun i _ => Finset.sum_nonneg fun j hj => ?_
  rw [Finset.mem_Ico] at hj
  exact h i j (by omega) hj.2

theorem upperSum_le (q : Nat) (a b : Nat → Nat → ℚ) (h : ∀ i j, i < j → j < q → a i j ≤ b i j) :
    upperSum q a ≤ upperSum q b := by
  unfold upperSum
  refine Finset.sum_le_sum fun i _ => Finset.sum_le_sum fun j hj => ?_
  rw [Finset.mem_Ico] at hj
  exact h i j (by omega) hj.2

theorem upperSum_congr (q : Nat) (a b : Nat → Nat → ℚ) (h : ∀ i j, i < j → j < q → a i j = b i j) :
    upperSum q a = upperSum q b := by
  unfold upperSum
  refine Finset.sum_congr rfl fun i _ => Finset.sum_congr rfl fun j hj => ?_
  rw [Finset.mem_Ico] at hj
  exact h i j (by omega) hj.2

theorem upperSum_zero (q : Nat) : upperSum q (fun _ _ => 0) = 0 := by
  simp [upperSum]

/-- A visited pair contributes at least its own term. -/
theorem le_upperSum (q : Nat) (a : Nat → Nat → ℚ) (h : ∀ i j, i < j → j < q → 0 ≤ a i j)
    (i j : Nat) (hij : i < j) (hj : j < q) : a i j ≤ upperSum q a := by
  unfold upperSum
  have hinner : a i j ≤ ∑ k in Finset.Ico (i + 1) q, a i k :=
    Finset.single_le_sum (f := fun k => a i k)
      (fun k hk => by rw [Finset.mem_Ico] at hk; exact h i k (by omega) hk.2)
      (Finset.mem_Ico.mpr ⟨by omega, hj⟩)
  have houter : ∑ k in Finset.Ico (i + 1) q, a i k ≤
      ∑ m in Finset.range q, ∑ k in Finset.Ico (m + 1) q, a m k :=
    Finset.single_le_sum (f := fun m => ∑ k in Finset.Ico (m + 1) q, a m k)
      (fun m _ => Finset.sum_nonneg fun k hk => by
        rw [Finset.mem_Ico] at hk; exact h m k (by omega) hk.2)
      (Finset.mem_range.mpr (by omega))
  exact hinner.trans houter

/-- The returned quotient lies in `[0, 1]` whenever the cross sum is
non-negative and bounded by both self sums. -/
theorem correlation_mem_unit (s : Sums) (h0 : 0 ≤ s.dot_c1c2)
    (h1 : s.dot_c1c2 ≤ s.dot_c1c1) (h2 : s.dot_c1c2 ≤ s.dot_c2c2) :
    0 ≤ correlation s ∧ correlation s ≤ 1 := by
  rw [correlation_eq_sqrt]
  have h0r : (0 : ℝ) ≤ (s.dot_c1c2 : ℝ) := by exact_mod_cast h0
  have h1r : (s.dot_c1c2 : ℝ) ≤ (s.dot_c1c1 : ℝ) := by exact_mod_cast h1
  have h2r : (s.dot_c1c2 : ℝ) ≤ (s.dot_c2c2 : ℝ) := by exact_mod_cast h2
  have hpos : (0 : ℝ) < max 1 (Real.sqrt ((s.dot_c1c1 : ℝ) * (s.dot_c2c2 : ℝ))) :=
    lt_of_lt_of_le one_pos (le_max_left _ _)
  have hle : (s.dot_c1c2 : ℝ) ≤ Real.sqrt ((s.dot_c1c1 : ℝ) * (s.dot_c2c2 : ℝ)) := by
    apply Real.le_sqrt_of_sq_le
    nlinarith
  refine ⟨div_nonneg h0r hpos.le, ?_⟩
  rw [div_le_one hpos]
  exact hle.trans (le_max_right _ _)

/-! ## Verified properties of `similarityRcpp` -/

theorem getElem?_of_comember {l : List Dbl} {i j : Nat} (h : comember l i j = true) :
    ∃ a b, l[i]? = some a ∧ l[j]? = some b ∧ Dbl.eq a b = true := by
  unfold comember at h
  cases hi : l[i]? with
  | none => simp [hi] at h
  | some a =>
    cases hj : l[j]? with
    | none => simp [hi, hj] at h
    | some b => exact ⟨a, b, rfl, rfl, by simpa [hi, hj] using h⟩

theorem comember_of_getElem? {l : List Dbl} {i j : Nat} {a b : Dbl}
    (hi : l[i]? = some a) (hj : l[j]? = some b) : comember l i j = Dbl.eq a b := by
  simp [comember, hi, hj]

/-- The three sums of the closed form are ordered as the unit-interval bound needs. -/
theorem closedForm_bounds (l1 l2 : List Dbl) (q : Nat) :
    0 ≤ upperSum q (fun i j => 2 * ind l1 i j * ind l2 i j) ∧
    upperSum q (fun i j => 2 * ind l1 i j * ind l2 i j) ≤ upperSum q (fun i j => 2 * ind l1 i j) ∧
    upperSum q (fun i j => 2 * ind l1 i j * ind l2 i j) ≤ upperSum q (fun i j => 2 * ind l2 i j) := by
  refine ⟨upperSum_nonneg _ _ fun i j _ _ => ?_, upperSum_le _ _ _ fun i j _ _ => ?_,
    upperSum_le _ _ _ fun i j _ _ => ?_⟩
  · have := ind_nonneg l1 i j; have := ind_nonneg l2 i j; positivity
  · have := ind_nonneg l1 i j; have := ind_le_one l2 i j; nlinarith
  · have := ind_nonneg l2 i j; have := ind_le_one l1 i j; nlinarith

/-- C1. For every pair of equal-length label vectors (any length, including 0
and 1) `similarityRcpp` returns a value, and that value lies in the closed
interval `[0, 1]`. -/
theorem similarityRcpp_mem_unit_interval (l1 l2 : List Dbl) (h : l1.length = l2.length) :
    ∃ r : ℝ, similarityRcpp l1 l2 = some r ∧ 0 ≤ r ∧ r ≤ 1 := by
  obtain ⟨h0, h1, h2⟩ := closedForm_bounds l1 l2 l1.length
  refine ⟨_, by rw [similarityRcpp, dotProducts_eq l1 l2 h.le]; rfl, ?_⟩
  exact correlation_mem_unit _ h0 h1 h2

theorem similarityRcpp_mem_unit_interval_witness :
    v1122.length = v1212.length ∧
      ∃ r : ℝ, similarityRcpp v1122 v1212 = some r ∧ 0 ≤ r ∧ r ≤ 1 :=
  ⟨rfl, similarityRcpp_mem_unit_interval v1122 v1212 rfl⟩

/-- C2. For all equal-length label vectors, `similarityRcpp l1 l2` and
`similarityRcpp l2 l1` are the same outcome. -/
theorem similarityRcpp_symm (l1 l2 : List Dbl) (h : l1.length = l2.length) :
    similarityRcpp l1 l2 = similarityRcpp l2 l1 := by
  rw [similarityRcpp, similarityRcpp, dotProducts_eq l1 l2 h.le, dotProducts_eq l2 l1 h.ge, h]
  simp only [Option.map_some', correlation_eq_sqrt]
  have hc : upperSum l2.length (fun i j => 2 * ind l2 i j * ind l1 i j) =
      upperSum l2.length (fun i j => 2 * ind l1 i j * ind l2 i j) :=
    upperSum_congr _ _ _ fun i j _ _ => by ring
  rw [hc, mul_comm]

theorem similarityRcpp_symm_witness :
    v1122.length = v1212.length ∧ similarityRcpp v1122 v1212 = similarityRcpp v1212 v1122 :=
  ⟨rfl, similarityRcpp_symm v1122 v1212 rfl⟩

/-- The value returned when a vector is compared with itself, in terms of the
one sum involved. -/
theorem dotProducts_self (l : List Dbl) :
    dotProducts l l = some
      { dot_c1c1 := upperSum l.length (fun i j => 2 * ind l i j)
        dot_c2c2 := upperSum l.length (fun i j => 2 * ind l i j)
        dot_c1c2 := upperSum l.length (fun i j => 2 * ind l i j) } := by
  rw [dotProducts_eq l l le_rfl]
  have hc : upperSum l.length (fun i j => 2 * ind l i j * ind l i j) =
      upperSum l.length (fun i j => 2 * ind l i j) :=
    upperSum_congr _ _ _ fun i j _ _ => by
      rw [mul_assoc]; simp only [ind, boolToDouble_mul_self]
  rw [hc]

/-- C3. A label vector in which some pair of positions `i < j` carries equal
labels (as the code compares them) has similarity exactly `1` with itself. -/
theorem similarityRcpp_self_eq_one (l : List Dbl)
    (h : ∃ (i j : Nat) (a b : Dbl), i < j ∧ l[i]? = some a ∧ l[j]? = some b ∧ Dbl.eq a b = true) :
    similarityRcpp l l = some 1 := by
  obtain ⟨i, j, a, b, hij, hi, hj, hab⟩ := h
  have hjlt : j < l.length := by
    rcases List.getElem?_eq_some_iff.mp hj with ⟨hlt, _⟩; exact hlt
  have hge : (2 : ℚ) ≤ upperSum l.length (fun i j => 2 * ind l i j) := by
    have hterm := le_upperSum l.length (fun i j => 2 * ind l i j)
      (fun i j _ _ => by have := ind_nonneg l i j; positivity) i j hij hjlt
    have hone : ind l i j = 1 := by
      simp [ind, comember_of_getElem? hi hj, hab, boolToDouble]
    simpa [hone] using hterm
  rw [similarityRcpp, dotProducts_self, Option.map_some', correlation_eq_sqrt]
  simp only
  have hr : (2 : ℝ) ≤ ((upperSum l.length (fun i j => 2 * ind l i j) : ℚ) : ℝ) := by
    exact_mod_cast hge
  rw [Real.sqrt_mul_self (by linarith), max_eq_right (by linarith), div_self (by linarith)]

theorem similarityRcpp_self_eq_one_witness :
    (∃ (i j : Nat) (a b : Dbl), i < j ∧ v1122[i]? = some a ∧ v1122[j]? = some b ∧
        Dbl.eq a b = true) ∧
      similarityRcpp v1122 v1122 = some 1 :=
  ⟨⟨0, 1, Dbl.fin 1, Dbl.fin 1, by decide, rfl, rfl, by simp [Dbl.eq]⟩,
    similarityRcpp_self_eq_one v1122
      ⟨0, 1, Dbl.fin 1, Dbl.fin 1, by decide, rfl, rfl, by simp [Dbl.eq]⟩⟩

theorem correlation_zero : correlation { dot_c1c1 := 0, dot_c2c2 := 0, dot_c1c2 := 0 } = 0 := by
  simp [correlation]

/-- C4. For a label vector whose labels are pairwise distinct (no two of them
compare equal), all three accumulated sums are `0` and the similarity of the
vector with itself is `0`, the divisor being the `1` of the `max` guard. -/
theorem similarityRcpp_self_distinct (l : List Dbl)
    (h : l.Pairwise (fun a b => Dbl.eq a b = false)) :
    dotProducts l l = some { dot_c1c1 := 0, dot_c2c2 := 0, dot_c1c2 := 0 } ∧
      divisor { dot_c1c1 := 0, dot_c2c2 := 0, dot_c1c2 := 0 } = 1 ∧
      similarityRcpp l l = some 0 := by
  have hzero : upperSum l.length (fun i j => 2 * ind l i j) = 0 := by
    rw [← upperSum_zero l.length]
    refine upperSum_congr _ _ _ fun i j hij hj => ?_
    have hi : i < l.length := by omega
    have hne : Dbl.eq l[i] l[j] = false := List.pairwise_iff_getElem.mp h i j hi hj hij
    have hc : comember l i j = false := by
      rw [comember_of_getElem? (List.getElem?_eq_getElem hi) (List.getElem?_eq_getElem hj), hne]
    simp [ind, hc, boolToDouble]
  have hd : dotProducts l l = some { dot_c1c1 := 0, dot_c2c2 := 0, dot_c1c2 := 0 } := by
    rw [dotProducts_self, hzero]
  refine ⟨hd, divisor_zero, ?_⟩
  rw [similarityRcpp, hd, Option.map_some', correlation_zero]

theorem similarityRcpp_self_distinct_witness :
    v1234.Pairwise (fun a b => Dbl.eq a b = false) ∧
      (dotProducts v1234 v1234 = some { dot_c1c1 := 0, dot_c2c2 := 0, dot_c1c2 := 0 } ∧
        divisor { dot_c1c1 := 0, dot_c2c2 := 0, dot_c1c2 := 0 } = 1 ∧
        similarityRcpp v1234 v1234 = some 0) :=
  ⟨by simp [v1234, Dbl.eq], similarityRcpp_self_distinct v1234 (by simp [v1234, Dbl.eq])⟩

/-- C5. For two label vectors of equal length `0` or `1` the loop body is never
run (whatever the body is, the loops hand back the sums they started with), all
three sums are `0`, and `similarityRcpp` returns `0`. -/
theorem similarityRcpp_short (l1 l2 : List Dbl) (_h : l1.length = l2.length)
    (hq : l1.length = 0 ∨ l1.length = 1) :
    (∀ (body : Nat → Nat → Sums → Option Sums) (s : Sums),
        outerLoop body l1.length l1.length 0 s = some s) ∧
      dotProducts l1 l2 = some { dot_c1c1 := 0, dot_c2c2 := 0, dot_c1c2 := 0 } ∧
      similarityRcpp l1 l2 = some 0 := by
  have hloop : ∀ (body : Nat → Nat → Sums → Option Sums) (s : Sums),
      outerLoop body l1.length l1.length 0 s = some s := by
    intro body s
    rcases hq with hq | hq <;> rw [hq] <;> simp [outerLoop, innerLoop]
  have hd : dotProducts l1 l2 = some { dot_c1c1 := 0, dot_c2c2 := 0, dot_c1c2 := 0 } :=
    hloop _ _
  refine ⟨hloop, hd, ?_⟩
  rw [similarityRcpp, hd, Option.map_some', correlation_zero]

theorem similarityRcpp_short_witness :
    ([Dbl.fin 7] : List Dbl).length = ([Dbl.fin 9] : List Dbl).length ∧
      (([Dbl.fin 7] : List Dbl).length = 0 ∨ ([Dbl.fin 7] : List Dbl).length = 1) ∧
      ((∀ (body : Nat → Nat → Sums → Option Sums) (s : Sums),
          outerLoop body ([Dbl.fin 7] : List Dbl).length ([Dbl.fin 7] : List Dbl).length 0 s
            = some s) ∧
        dotProducts [Dbl.fin 7] [Dbl.fin 9]
          = some { dot_c1c1 := 0, dot_c2c2 := 0, dot_c1c2 := 0 } ∧
        similarityRcpp [Dbl.fin 7] [Dbl.fin 9] = some 0) :=
  ⟨rfl, Or.inr rfl, similarityRcpp_short [Dbl.fin 7] [Dbl.fin 9] rfl (Or.inr rfl)⟩

theorem ind_take (l : List Dbl) (q i j : Nat) (hi : i < q) (hj : j < q) :
    ind (l.take q) i j = ind l i j := by
  simp [ind, comember, List.getElem?_take, hi, hj]

/-- When `l2` is at least as long as `l1`, only its first `l1.length` labels are read. -/
theorem dotProducts_take (l1 l2 : List Dbl) (h : l1.length ≤ l2.length) :
    dotProducts l1 (l2.take l1.length) = dotProducts l1 l2 := by
  rw [dotProducts_eq l1 l2 h, dotProducts_eq l1 (l2.take l1.length) (by simp [h])]
  have e2 : upperSum l1.length (fun i j => 2 * ind (l2.take l1.length) i j) =
      upperSum l1.length (fun i j => 2 * ind l2 i j) :=
    upperSum_congr _ _ _ fun i j hij hj => by rw [ind_take l2 _ i j (by omega) hj]
  have e12 : upperSum l1.length (fun i j => 2 * ind l1 i j * ind (l2.take l1.length) i j) =
      upperSum l1.length (fun i j => 2 * ind l1 i j * ind l2 i j) :=
    upperSum_congr _ _ _ fun i j hij hj => by rw [ind_take l2 _ i j (by omega) hj]
  rw [e2, e12]

theorem loopBody_none (l1 l2 : List Dbl) (i j : Nat) (s : Sums) (hj : l2.length ≤ j) :
    loopBody l1 l2 i j s = none := by
  have h : l2[j]? = none := List.getElem?_eq_none hj
  unfold loopBody
  cases l1[i]? <;> cases l1[j]? <;> cases l2[i]? <;> simp [h]

theorem innerLoop_none (body : Nat → Nat → Sums → Option Sums) (i : Nat) :
    ∀ (n j : Nat) (s : Sums), (∃ k, k < n ∧ ∀ s', body i (j + k) s' = none) →
      innerLoop body i n j s = none := by
  intro n
  induction n with
  | zero => intro j s ⟨k, hk, _⟩; omega
  | succ n ih =>
    intro j s ⟨k, hk, hnone⟩
    rw [innerLoop]
    cases k with
    | zero =>
      have h0 : body i j s = none := hnone s
      rw [h0]; rfl
    | succ k =>
      cases hb : body i j s with
      | none => rfl
      | some s' =>
        rw [Option.some_bind]
        exact ih (j + 1) s' ⟨k, by omega, fun t => by
          have := hnone t
          rwa [show j + (k + 1) = j + 1 + k by omega] at this⟩

/-- When `l2` is shorter than `l1` and `l1` has at least two labels, the loop
reads `l2` outside its bounds. -/
theorem dotProducts_none (l1 l2 : List Dbl) (h : l2.length < l1.length) (h2 : 2 ≤ l1.length) :
    dotProducts l1 l2 = none := by
  unfold dotProducts
  simp only
  obtain ⟨n, hn⟩ : ∃ n, l1.length = n + 1 := ⟨l1.length - 1, by omega⟩
  rw [show outerLoop (loopBody l1 l2) l1.length l1.length 0
        { dot_c1c1 := 0, dot_c2c2 := 0, dot_c1c2 := 0 } =
      outerLoop (loopBody l1 l2) l1.length (n + 1) 0
        { dot_c1c1 := 0, dot_c2c2 := 0, dot_c1c2 := 0 } by rw [← hn]]
  rw [outerLoop, innerLoop_none (loopBody l1 l2) 0 _ _ _
    ⟨l1.length - 2, by omega, fun s' => loopBody_none l1 l2 0 _ s' (by omega)⟩]
  rfl

/-- C6 (amended). The code performs no length check and never reports a
length mismatch.  With `l1` shorter than `l2` it returns a value, the one it
returns for `l1` and the first `l1.length` labels of `l2`; with `l2` shorter
than `l1` it reads `l2` out of bounds as soon as `l1` has two labels, and
returns `0` without reading anything when `l1` has a single label. -/
theorem similarityRcpp_length_mismatch (l1 l2 : List Dbl) (_h : l1.length ≠ l2.length) :
    (l1.length < l2.length →
        ∃ r : ℝ, similarityRcpp l1 l2 = some r ∧
          similarityRcpp l1 (l2.take l1.length) = some r) ∧
      (l2.length < l1.length → 2 ≤ l1.length → similarityRcpp l1 l2 = none) ∧
      (l2.length < l1.length → l1.length ≤ 1 → similarityRcpp l1 l2 = some 0) := by
  refine ⟨fun hlt => ?_, fun hlt h2 => ?_, fun hlt h1 => ?_⟩
  · refine ⟨_, by rw [similarityRcpp, dotProducts_eq l1 l2 hlt.le]; rfl, ?_⟩
    rw [similarityRcpp, dotProducts_take l1 l2 hlt.le, dotProducts_eq l1 l2 hlt.le]; rfl
  · rw [similarityRcpp, dotProducts_none l1 l2 hlt h2]; rfl
  · have hq : l1.length = 1 := by omega
    have hd : dotProducts l1 l2 = some { dot_c1c1 := 0, dot_c2c2 := 0, dot_c1c2 := 0 } := by
      unfold dotProducts
      simp only
      rw [hq]
      simp [outerLoop, innerLoop]
    rw [similarityRcpp, hd, Option.map_some', correlation_zero]

theorem similarityRcpp_length_mismatch_witness :
    v112.length ≠ v1122.length ∧
      ((v112.length < v1122.length →
          ∃ r : ℝ, similarityRcpp v112 v1122 = some r ∧
            similarityRcpp v112 (v1122.take v112.length) = some r) ∧
        (v1122.length < v112.length → 2 ≤ v112.length → similarityRcpp v112 v1122 = none) ∧
        (v1122.length < v112.length → v112.length ≤ 1 → similarityRcpp v112 v1122 = some 0)) :=
  ⟨by decide, similarityRcpp_length_mismatch v112 v1122 (by decide)⟩

/-- C6 (counterexample). With `l1` of length 3 and `l2` of length 4 the code
raises nothing: it returns `1`, the fourth label of `l2` being ignored. -/
theorem similarityRcpp_no_length_check :
    ¬ (∀ l1 l2 : List Dbl, l1.length ≠ l2.length → similarityRcpp l1 l2 = none) ∧
      v112.length = 3 ∧ v1122.length = 4 ∧ similarityRcpp v112 v1122 = some 1 := by
  have hd : dotProducts v112 v1122 = some ⟨2, 2, 2⟩ := by
    simp [v112, v1122, dotProducts, outerLoop, innerLoop, loopBody, Dbl.eq, boolToDouble]
  have hs : similarityRcpp v112 v1122 = some 1 := by
    rw [similarityRcpp, hd, Option.map_some', correlation_eq_sqrt]
    simp only
    have h4 : (((2 : ℚ) : ℝ)) * (((2 : ℚ) : ℝ)) = 2 * 2 := by norm_num
    rw [h4, Real.sqrt_mul_self (by norm_num)]
    norm_num
  refine ⟨fun hall => ?_, rfl, rfl, hs⟩
  have := hall v112 v1122 (by decide)
  rw [hs] at this
  exact Option.some_ne_none _ this

theorem upperSum_eq_ite (q : Nat) (a : Nat → Nat → ℚ) :
    upperSum q a = ∑ i in Finset.range q, ∑ j in Finset.range q, if i < j then a i j else 0 := by
  unfold upperSum
  refine Finset.sum_congr rfl fun i _ => ?_
  rw [← Finset.sum_filter]
  refine Finset.sum_congr ?_ fun _ _ => rfl
  ext j
  simp only [Finset.mem_Ico, Finset.mem_filter, Finset.mem_range]
  omega

/-- Visiting `i < j` and counting twice is visiting all ordered pairs `i ≠ j`,
for a symmetric summand. -/
theorem upperSum_two_mul (q : Nat) (a : Nat → Nat → ℚ) (hs : ∀ i j, a i j = a j i) :
    upperSum q (fun i j => 2 * a i j) =
      ∑ i in Finset.range q, ∑ j in Finset.range q, if i ≠ j then a i j else 0 := by
  have hU : upperSum q (fun i j => 2 * a i j) = 2 * upperSum q a := by
    simp only [upperSum, Finset.mul_sum]
  have hL : (∑ i in Finset.range q, ∑ j in Finset.range q, if j < i then a i j else 0) =
      upperSum q a := by
    rw [upperSum_eq_ite, Finset.sum_comm]
    refine Finset.sum_congr rfl fun i _ => Finset.sum_congr rfl fun j _ => ?_
    rw [hs j i]
  have hD : (∑ i in Finset.range q, ∑ j in Finset.range q, if i ≠ j then a i j else 0) =
      upperSum q a +
        ∑ i in Finset.range q, ∑ j in Finset.range q, if j < i then a i j else 0 := by
    rw [upperSum_eq_ite, ← Finset.sum_add_distrib]
    refine Finset.sum_congr rfl fun i _ => ?_
    rw [← Finset.sum_add_distrib]
    refine Finset.sum_congr rfl fun j _ => ?_
    rcases Nat.lt_trichotomy i j with h | h | h
    · simp [h, Nat.ne_of_lt h, Nat.lt_asymm h]
    · simp [h]
    · simp [h, Nat.ne_of_gt h, Nat.lt_asymm h]
  rw [hU, hD, hL]; ring

theorem orderedPairCount_cast (q : Nat) (p : Nat → Nat → Bool) :
    ((orderedPairCount q p : ℕ) : ℚ) =
      ∑ i in Finset.range q, ∑ j in Finset.range q, if i ≠ j then boolToDouble (p i j) else 0 := by
  unfold orderedPairCount
  rw [Finset.card_filter, Nat.cast_sum, Finset.sum_product]
  refine Finset.sum_congr rfl fun i _ => Finset.sum_congr rfl fun j _ => ?_
  by_cases hij : i = j <;> cases hp : p i j <;> simp [hij, hp, boolToDouble]

theorem upperSum_eq_orderedPairCount (q : Nat) (p : Nat → Nat → Bool)
    (hs : ∀ i j, p i j = p j i) :
    upperSum q (fun i j => 2 * boolToDouble (p i j)) = ((orderedPairCount q p : ℕ) : ℚ) := by
  rw [orderedPairCount_cast, upperSum_two_mul q (fun i j => boolToDouble (p i j))
    (fun i j => by simp only [hs i j])]

theorem boolToDouble_and (a b : Bool) :
    boolToDouble (a && b) = boolToDouble a * boolToDouble b := by
  cases a <;> cases b <;> simp [boolToDouble]

/-- The loop's sums are the numbers of co-membered ordered pairs. -/
theorem dotProducts_eq_counts (l1 l2 : List Dbl) (h : l1.length ≤ l2.length) :
    dotProducts l1 l2 = some
      { dot_c1c1 := (orderedPairCount l1.length (comember l1) : ℕ)
        dot_c2c2 := (orderedPairCount l1.length (comember l2) : ℕ)
        dot_c1c2 :=
          (orderedPairCount l1.length (fun i j => comember l1 i j && comember l2 i j) : ℕ) } := by
  rw [dotProducts_eq l1 l2 h]
  rw [← upperSum_eq_orderedPairCount _ (comember l1) (comember_comm l1),
    ← upperSum_eq_orderedPairCount _ (comember l2) (comember_comm l2),
    ← upperSum_eq_orderedPairCount _ (fun i j => comember l1 i j && comember l2 i j)
      (fun i j => by simp only [comember_comm l1 i j, comember_comm l2 i j])]
  simp only [boolToDouble_and, ind, mul_assoc]

/-- C7. For equal-length label vectors the loop's three sums are the numbers
of ordered pairs of distinct positions co-membered in `l1`, in `l2` and in
both, and `similarityRcpp` returns the full-matrix reference value
`N12 / max(1, sqrt(N11 * N22))`. -/
theorem similarityRcpp_eq_fullMatrix (l1 l2 : List Dbl) (h : l1.length = l2.length) :
    dotProducts l1 l2 = some
        { dot_c1c1 := (orderedPairCount l1.length (comember l1) : ℕ)
          dot_c2c2 := (orderedPairCount l1.length (comember l2) : ℕ)
          dot_c1c2 :=
            (orderedPairCount l1.length (fun i j => comember l1 i j && comember l2 i j) : ℕ) } ∧
      similarityRcpp l1 l2 = some (fullMatrixSimilarity l1 l2) := by
  refine ⟨dotProducts_eq_counts l1 l2 h.le, ?_⟩
  rw [similarityRcpp, dotProducts_eq_counts l1 l2 h.le, Option.map_some', correlation_eq_sqrt]
  simp [fullMatrixSimilarity]

theorem similarityRcpp_eq_fullMatrix_witness :
    v1122.length = v1212.length ∧
      (dotProducts v1122 v1212 = some
          { dot_c1c1 := (orderedPairCount v1122.length (comember v1122) : ℕ)
            dot_c2c2 := (orderedPairCount v1122.length (comember v1212) : ℕ)
            dot_c1c2 :=
              (orderedPairCount v1122.length
                (fun i j => comember v1122 i j && comember v1212 i j) : ℕ) } ∧
        similarityRcpp v1122 v1212 = some (fullMatrixSimilarity v1122 v1212)) :=
  ⟨rfl, similarityRcpp_eq_fullMatrix v1122 v1212 rfl⟩

theorem dotProducts_v1122_v1212 :
    dotProducts v1122 v1212 = some { dot_c1c1 := 4, dot_c2c2 := 4, dot_c1c2 := 0 } := by
  simp [v1122, v1212, dotProducts, outerLoop, innerLoop, loopBody, Dbl.eq, boolToDouble]
  norm_num

/-- C8. `similarityRcpp([1,1,2,2], [1,2,1,2])` returns `0`. -/
theorem similarityRcpp_v1122_v1212 : similarityRcpp v1122 v1212 = some 0 := by
  rw [similarityRcpp, dotProducts_v1122_v1212]
  simp [correlation]

/-- C9 (counterexample). For `l1 = [1,1,2,2]` and `l2 = [1,2,1,2]` the loop does
not end with `dot_c1c1 = 4` and `dot_c2c2 = 0`: positions 0 and 2 of `l2` carry
the same label. -/
theorem dotProducts_v1122_v1212_not_zero :
    ¬ (∃ s : Sums, dotProducts v1122 v1212 = some s ∧ s.dot_c1c1 = 4 ∧ s.dot_c2c2 = 0) ∧
      (∃ a b : Dbl, v1212[0]? = some a ∧ v1212[2]? = some b ∧ Dbl.eq a b = true) := by
  refine ⟨?_, Dbl.fin 1, Dbl.fin 1, rfl, rfl, by simp [Dbl.eq]⟩
  rintro ⟨s, hs, _, h2⟩
  rw [dotProducts_v1122_v1212] at hs
  have hs' := (Option.some.inj hs).symm
  rw [hs'] at h2
  norm_num at h2

/-- C9 (amended). For `l1 = [1,1,2,2]` and `l2 = [1,2,1,2]` the loop ends with
`dot_c1c1 = 4`, `dot_c2c2 = 4` and `dot_c1c2 = 0`: `l2` has the two equal-label
pairs `(0, 2)` and `(1, 3)`, and no pair is co-membered in both vectors. -/
theorem dotProducts_v1122_v1212_sums :
    ∃ s : Sums, dotProducts v1122 v1212 = some s ∧
      s.dot_c1c1 = 4 ∧ s.dot_c2c2 = 4 ∧ s.dot_c1c2 = 0 :=
  ⟨_, dotProducts_v1122_v1212, rfl, rfl, rfl⟩

theorem loopBody_map (l1 l2 : List Dbl) (f g : Dbl → Dbl)
    (hf : ∀ x y, Dbl.eq (f x) (f y) = Dbl.eq x y)
    (hg : ∀ x y, Dbl.eq (g x) (g y) = Dbl.eq x y) :
    loopBody (l1.map f) (l2.map g) = loopBody l1 l2 := by
  funext i j s
  simp only [loopBody, List.getElem?_map]
  cases l1[i]? <;> cases l1[j]? <;> cases l2[i]? <;> cases l2[j]? <;> simp [hf, hg]

theorem swapNaNOne_involutive : Function.Involutive swapNaNOne := by
  intro d
  cases d with
  | fin x =>
    by_cases hx : x = 1
    · simp [swapNaNOne, hx]
    · simp [swapNaNOne, hx]
  | _ => simp [swapNaNOne]

/-- C10 (counterexample). Injectivity of a relabeling is not enough: the
injective relabeling that exchanges `1` and NaN turns `[NaN, NaN]`, which has no
co-membered pair because `NaN == NaN` is false, into `[1, 1]`, and the
similarity with `[1, 1]` goes from `0` to `1`. -/
theorem similarityRcpp_relabel_injective_fails :
    ¬ (∀ (l1 l2 : List Dbl) (f g : Dbl → Dbl), l1.length = l2.length →
        Function.Injective f → Function.Injective g →
        similarityRcpp (l1.map f) (l2.map g) = similarityRcpp l1 l2) := by
  intro hall
  have h := hall [Dbl.nan, Dbl.nan] [Dbl.fin 1, Dbl.fin 1] swapNaNOne id rfl
    swapNaNOne_involutive.injective Function.injective_id
  have hl : similarityRcpp ([Dbl.nan, Dbl.nan].map swapNaNOne) ([Dbl.fin 1, Dbl.fin 1].map id)
      = some 1 := by
    have hd : dotProducts ([Dbl.nan, Dbl.nan].map swapNaNOne) ([Dbl.fin 1, Dbl.fin 1].map id)
        = some ⟨2, 2, 2⟩ := by
      simp [swapNaNOne, dotProducts, outerLoop, innerLoop, loopBody, Dbl.eq, boolToDouble]
    rw [similarityRcpp, hd, Option.map_some', correlation_eq_sqrt]
    simp only
    have h4 : (((2 : ℚ) : ℝ)) * (((2 : ℚ) : ℝ)) = 2 * 2 := by norm_num
    rw [h4, Real.sqrt_mul_self (by norm_num)]
    norm_num
  have hr : similarityRcpp [Dbl.nan, Dbl.nan] [Dbl.fin 1, Dbl.fin 1] = some 0 := by
    have hd : dotProducts [Dbl.nan, Dbl.nan] [Dbl.fin 1, Dbl.fin 1] = some ⟨0, 2, 0⟩ := by
      simp [dotProducts, outerLoop, innerLoop, loopBody, Dbl.eq, boolToDouble]
    rw [similarityRcpp, hd, Option.map_some']
    simp [correlation]
  rw [hl, hr] at h
  norm_num at h

/-- C10 (amended). Only equality of labels matters: for equal-length label
vectors and relabelings `f`, `g` that keep the outcome of every comparison
(`f x == f y` exactly when `x == y`, and the same for `g`),
`similarityRcpp (map f l1) (map g l2) = similarityRcpp l1 l2`. -/
theorem similarityRcpp_relabel (l1 l2 : List Dbl) (f g : Dbl → Dbl)
    (_h : l1.length = l2.length)
    (hf : ∀ x y, Dbl.eq (f x) (f y) = Dbl.eq x y)
    (hg : ∀ x y, Dbl.eq (g x) (g y) = Dbl.eq x y) :
    similarityRcpp (l1.map f) (l2.map g) = similarityRcpp l1 l2 := by
  simp only [similarityRcpp, dotProducts, loopBody_map l1 l2 f g hf hg, List.length_map]

theorem doubleLabel_eq (x y : Dbl) : Dbl.eq (doubleLabel x) (doubleLabel y) = Dbl.eq x y := by
  cases x <;> cases y <;> simp [doubleLabel, Dbl.eq]

theorem similarityRcpp_relabel_witness :
    v1122.length = v1212.length ∧
      (∀ x y, Dbl.eq (doubleLabel x) (doubleLabel y) = Dbl.eq x y) ∧
      (∀ x y, Dbl.eq (id x) (id y) = Dbl.eq x y) ∧
      similarityRcpp (v1122.map doubleLabel) (v1212.map id) = similarityRcpp v1122 v1212 :=
  ⟨rfl, doubleLabel_eq, fun _ _ => rfl,
    similarityRcpp_relabel v1122 v1212 doubleLabel id rfl doubleLabel_eq fun _ _ => rfl⟩

/-! ## The guard, the invariant and the bounds of the reads -/

/-- C11. Whatever sums the loop hands over, the divisor
`max(1.0, pow(S11 * S22, 0.5))` is at least `1`, hence never `0`: a division that
fails on a zero divisor never fails here and yields the returned quotient. -/
theorem divisor_ge_one (s : Sums) :
    1 ≤ divisor s ∧ divisor s ≠ 0 ∧
      guardedDiv (s.dot_c1c2 : ℝ) (divisor s) = some (correlation s) := by
  have h1 : 1 ≤ divisor s := le_max_left _ _
  have h0 : divisor s ≠ 0 := ne_of_gt (lt_of_lt_of_le one_pos h1)
  exact ⟨h1, h0, by simp [guardedDiv, h0, correlation]⟩

theorem SumsInv_zero : SumsInv { dot_c1c1 := 0, dot_c2c2 := 0, dot_c1c2 := 0 } := by
  simp [SumsInv]

/-- One run of the loop body keeps the invariant. -/
theorem SumsInv_loopBody (l1 l2 : List Dbl) (i j : Nat) (s t : Sums)
    (hs : SumsInv s) (h : loopBody l1 l2 i j s = some t) : SumsInv t := by
  unfold loopBody at h
  cases h1i : l1[i]? with
  | none => simp [h1i] at h
  | some a =>
    cases h1j : l1[j]? with
    | none => simp [h1i, h1j] at h
    | some b =>
      cases h2i : l2[i]? with
      | none => simp [h1i, h1j, h2i] at h
      | some c =>
        cases h2j : l2[j]? with
        | none => simp [h1i, h1j, h2i, h2j] at h
        | some d =>
          simp only [h1i, h1j, h2i, h2j, Option.bind_eq_bind, Option.some_bind, Option.pure_def,
            Option.some.injEq] at h
          subst h
          obtain ⟨h0, h11, h22, hmin⟩ := hs
          have ha0 := boolToDouble_nonneg (Dbl.eq a b)
          have ha1 := boolToDouble_le_one (Dbl.eq a b)
          have hb0 := boolToDouble_nonneg (Dbl.eq c d)
          have hb1 := boolToDouble_le_one (Dbl.eq c d)
          have hm1 := le_min_iff.mp hmin
          refine ⟨?_, ?_, ?_, le_min ?_ ?_⟩ <;> simp only <;> nlinarith [hm1.1, hm1.2]

theorem SumsInv_innerLoop (l1 l2 : List Dbl) (i : Nat) :
    ∀ (n j : Nat) (s t : Sums), SumsInv s →
      innerLoop (loopBody l1 l2) i n j s = some t → SumsInv t := by
  intro n
  induction n with
  | zero =>
    intro j s t hs h
    simp only [innerLoop, Option.some.injEq] at h
    exact h ▸ hs
  | succ n ih =>
    intro j s t hs h
    rw [innerLoop] at h
    cases hb : loopBody l1 l2 i j s with
    | none => simp [hb] at h
    | some u =>
      rw [hb, Option.some_bind] at h
      exact ih (j + 1) u t (SumsInv_loopBody l1 l2 i j s u hs hb) h

theorem SumsInv_outerLoop (l1 l2 : List Dbl) (q : Nat) :
    ∀ (n i : Nat) (s t : Sums), SumsInv s →
      outerLoop (loopBody l1 l2) q n i s = some t → SumsInv t := by
  intro n
  induction n with
  | zero =>
    intro i s t hs h
    simp only [outerLoop, Option.some.injEq] at h
    exact h ▸ hs
  | succ n ih =>
    intro i s t hs h
    rw [outerLoop] at h
    cases hb : innerLoop (loopBody l1 l2) i (q - (i + 1)) (i + 1) s with
    | none => simp [hb] at h
    | some u =>
      rw [hb, Option.some_bind] at h
      exact ih (i + 1) u t (SumsInv_innerLoop l1 l2 i _ _ s u hs hb) h

/-- C12. For equal-length label vectors the loop returns sums, and they satisfy
`0 ≤ S12`, `0 ≤ S11`, `0 ≤ S22` and `S12 ≤ min(S11, S22)`.  The property is a
loop invariant: it holds of the initial sums and is kept by every run of the
loop body, hence by every run of the inner loop and of the outer loop from any
point on. -/
theorem sums_invariant (l1 l2 : List Dbl) (h : l1.length = l2.length) :
    (∃ s : Sums, dotProducts l1 l2 = some s ∧ SumsInv s) ∧
      SumsInv { dot_c1c1 := 0, dot_c2c2 := 0, dot_c1c2 := 0 } ∧
      (∀ (i j : Nat) (s t : Sums), SumsInv s → loopBody l1 l2 i j s = some t → SumsInv t) ∧
      (∀ (i n j : Nat) (s t : Sums), SumsInv s →
        innerLoop (loopBody l1 l2) i n j s = some t → SumsInv t) ∧
      (∀ (n i : Nat) (s t : Sums), SumsInv s →
        outerLoop (loopBody l1 l2) l1.length n i s = some t → SumsInv t) := by
  refine ⟨?_, SumsInv_zero, SumsInv_loopBody l1 l2, SumsInv_innerLoop l1 l2,
    SumsInv_outerLoop l1 l2 l1.length⟩
  have hd := dotProducts_eq l1 l2 h.le
  refine ⟨_, hd, ?_⟩
  exact SumsInv_outerLoop l1 l2 l1.length l1.length 0 _ _ SumsInv_zero
    (by unfold dotProducts at hd; exact hd)

theorem sums_invariant_witness :
    v1122.length = v1212.length ∧
      ((∃ s : Sums, dotProducts v1122 v1212 = some s ∧ SumsInv s) ∧
        SumsInv { dot_c1c1 := 0, dot_c2c2 := 0, dot_c1c2 := 0 } ∧
        (∀ (i j : Nat) (s t : Sums), SumsInv s →
          loopBody v1122 v1212 i j s = some t → SumsInv t) ∧
        (∀ (i n j : Nat) (s t : Sums), SumsInv s →
          innerLoop (loopBody v1122 v1212) i n j s = some t → SumsInv t) ∧
        (∀ (n i : Nat) (s t : Sums), SumsInv s →
          outerLoop (loopBody v1122 v1212) v1122.length n i s = some t → SumsInv t)) :=
  ⟨rfl, sums_invariant v1122 v1212 rfl⟩

theorem one_le_cast_of_pos (n : ℕ) (h : (0 : ℚ) < (n : ℚ)) : (1 : ℝ) ≤ (((n : ℚ)) : ℝ) := by
  have hn : 0 < n := by exact_mod_cast h
  have h1 : (1 : ℚ) ≤ (n : ℚ) := by exact_mod_cast hn
  exact_mod_cast h1

/-- C13. For equal-length label vectors whose sums `S11` and `S22` are both
positive, `sqrt(S11 * S22) ≥ 1`, the divisor is that square root and the result
is `S12 / sqrt(S11 * S22)`; the `max` guard replaces the square root only when
`S11 = 0` or `S22 = 0`. -/
theorem clamp_only_without_comembership (l1 l2 : List Dbl) (h : l1.length = l2.length) :
    ∃ s : Sums, dotProducts l1 l2 = some s ∧
      (0 < s.dot_c1c1 → 0 < s.dot_c2c2 →
        1 ≤ Real.sqrt ((s.dot_c1c1 : ℝ) * (s.dot_c2c2 : ℝ)) ∧
        divisor s = Real.sqrt ((s.dot_c1c1 : ℝ) * (s.dot_c2c2 : ℝ)) ∧
        similarityRcpp l1 l2 =
          some ((s.dot_c1c2 : ℝ) / Real.sqrt ((s.dot_c1c1 : ℝ) * (s.dot_c2c2 : ℝ)))) ∧
      (divisor s ≠ Real.sqrt ((s.dot_c1c1 : ℝ) * (s.dot_c2c2 : ℝ)) →
        s.dot_c1c1 = 0 ∨ s.dot_c2c2 = 0) := by
  have hd := dotProducts_eq_counts l1 l2 h.le
  refine ⟨_, hd, ?_⟩
  simp only
  have key : ∀ n m : ℕ, (0 : ℚ) < (n : ℚ) → (0 : ℚ) < (m : ℚ) →
      1 ≤ Real.sqrt ((((n : ℚ)) : ℝ) * (((m : ℚ)) : ℝ)) := by
    intro n m hn hm
    have h1 := one_le_cast_of_pos n hn
    have h2 := one_le_cast_of_pos m hm
    rw [Real.one_le_sqrt]
    nlinarith
  refine ⟨fun h1 h2 => ?_, fun hne => ?_⟩
  · have hk := key _ _ h1 h2
    refine ⟨hk, ?_, ?_⟩
    · rw [divisor_eq_sqrt]; exact max_eq_right hk
    · rw [similarityRcpp, hd, Option.map_some', correlation_eq_sqrt]
      simp only
      rw [max_eq_right hk]
  · by_contra hcon
    rw [not_or] at hcon
    have h1 : (0 : ℚ) < ((orderedPairCount l1.length (comember l1) : ℕ) : ℚ) :=
      lt_of_le_of_ne (Nat.cast_nonneg _) (Ne.symm hcon.1)
    have h2 : (0 : ℚ) < ((orderedPairCount l1.length (comember l2) : ℕ) : ℚ) :=
      lt_of_le_of_ne (Nat.cast_nonneg _) (Ne.symm hcon.2)
    apply hne
    rw [divisor_eq_sqrt]
    exact max_eq_right (key _ _ h1 h2)

theorem clamp_only_without_comembership_witness :
    v1122.length = v1212.length ∧
      ∃ s : Sums, dotProducts v1122 v1212 = some s ∧
        (0 < s.dot_c1c1 → 0 < s.dot_c2c2 →
          1 ≤ Real.sqrt ((s.dot_c1c1 : ℝ) * (s.dot_c2c2 : ℝ)) ∧
          divisor s = Real.sqrt ((s.dot_c1c1 : ℝ) * (s.dot_c2c2 : ℝ)) ∧
          similarityRcpp v1122 v1212 =
            some ((s.dot_c1c2 : ℝ) / Real.sqrt ((s.dot_c1c1 : ℝ) * (s.dot_c2c2 : ℝ)))) ∧
        (divisor s ≠ Real.sqrt ((s.dot_c1c1 : ℝ) * (s.dot_c2c2 : ℝ)) →
          s.dot_c1c1 = 0 ∨ s.dot_c2c2 = 0) :=
  ⟨rfl, clamp_only_without_comembership v1122 v1212 rfl⟩

theorem ind_eq_zero_of_pairwise (l : List Dbl) (h : l.Pairwise (fun a b => Dbl.eq a b = false))
    (i j : Nat) (hij : i < j) (hj : j < l.length) : ind l i j = 0 := by
  have hi : i < l.length := by omega
  have hne : Dbl.eq l[i] l[j] = false := List.pairwise_iff_getElem.mp h i j hi hj hij
  have hc : comember l i j = false := by
    rw [comember_of_getElem? (List.getElem?_eq_getElem hi) (List.getElem?_eq_getElem hj), hne]
  simp [ind, hc, boolToDouble]

/-- C14. For equal-length label vectors of which at least one has pairwise
distinct labels (no two of its labels compare equal), `similarityRcpp` returns
`0`, whatever the other vector is. -/
theorem similarityRcpp_singletons (l1 l2 : List Dbl) (h : l1.length = l2.length)
    (hd : l1.Pairwise (fun a b => Dbl.eq a b = false) ∨
      l2.Pairwise (fun a b => Dbl.eq a b = false)) :
    similarityRcpp l1 l2 = some 0 := by
  have hz : upperSum l1.length (fun i j => 2 * ind l1 i j * ind l2 i j) = 0 := by
    rw [← upperSum_zero l1.length]
    refine upperSum_congr _ _ _ fun i j hij hj => ?_
    rcases hd with hd | hd
    · rw [ind_eq_zero_of_pairwise l1 hd i j hij hj]; ring
    · rw [ind_eq_zero_of_pairwise l2 hd i j hij (h ▸ hj)]; ring
  rw [similarityRcpp, dotProducts_eq l1 l2 h.le, Option.map_some', hz]
  simp [correlation]

theorem similarityRcpp_singletons_witness :
    v1234.length = v1122.length ∧
      (v1234.Pairwise (fun a b => Dbl.eq a b = false) ∨
        v1122.Pairwise (fun a b => Dbl.eq a b = false)) ∧
      similarityRcpp v1234 v1122 = some 0 :=
  ⟨rfl, Or.inl (by simp [v1234, Dbl.eq]),
    similarityRcpp_singletons v1234 v1122 rfl (Or.inl (by simp [v1234, Dbl.eq]))⟩

theorem innerLoop_isSome (body : Nat → Nat → Sums → Option Sums) (q i : Nat)
    (hbody : ∀ j s, i < j → j < q → (body i j s).isSome = true) :
    ∀ (n j : Nat) (s : Sums), i < j → j + n ≤ q → (innerLoop body i n j s).isSome = true := by
  intro n
  induction n with
  | zero => intro j s _ _; rfl
  | succ n ih =>
    intro j s hij hq
    rw [innerLoop]
    obtain ⟨t, ht⟩ := Option.isSome_iff_exists.mp (hbody j s hij (by omega))
    rw [ht, Option.some_bind]
    exact ih (j + 1) t (by omega) (by omega)

theorem outerLoop_isSome (body : Nat → Nat → Sums → Option Sums) (q : Nat)
    (hbody : ∀ i j s, i < j → j < q → (body i j s).isSome = true) :
    ∀ (n i : Nat) (s : Sums), i + n ≤ q → (outerLoop body q n i s).isSome = true := by
  intro n
  induction n with
  | zero => intro i s _; rfl
  | succ n ih =>
    intro i s hq
    rw [outerLoop]
    obtain ⟨t, ht⟩ := Option.isSome_iff_exists.mp
      (innerLoop_isSome body q i (fun j s => hbody i j s) (q - (i + 1)) (i + 1) s
        (by omega) (by omega))
    rw [ht, Option.some_bind]
    exact ih (i + 1) t (by omega)

/-- C15. For label vectors of equal length `q` the loops run their body only at
index pairs `i < j < q` (any body that succeeds on those pairs makes the loops
succeed), at such a pair the four reads `l1[i]`, `l1[j]`, `l2[i]`, `l2[j]` are
inside the vectors, and so the loop and `similarityRcpp` return a value for
every `q`, `0` and `1` included. -/
theorem reads_in_bounds (l1 l2 : List Dbl) (h : l1.length = l2.length) :
    (∀ body : Nat → Nat → Sums → Option Sums,
        (∀ i j s, i < j → j < l1.length → (body i j s).isSome = true) →
        ∀ s, (outerLoop body l1.length l1.length 0 s).isSome = true) ∧
      (∀ i j, i < j → j < l1.length →
        (l1[i]?).isSome = true ∧ (l1[j]?).isSome = true ∧
        (l2[i]?).isSome = true ∧ (l2[j]?).isSome = true) ∧
      (dotProducts l1 l2).isSome = true ∧ (similarityRcpp l1 l2).isSome = true := by
  have hd := dotProducts_eq l1 l2 h.le
  refine ⟨fun body hbody s => outerLoop_isSome body _ hbody _ 0 s (by omega), ?_, ?_, ?_⟩
  · intro i j hij hj
    have hi : i < l1.length := by omega
    have hi2 : i < l2.length := h ▸ hi
    have hj2 : j < l2.length := h ▸ hj
    simp [List.getElem?_eq_getElem, hi, hj, hi2, hj2]
  · rw [hd]; rfl
  · rw [similarityRcpp, hd]; rfl

theorem reads_in_bounds_witness :
    v1122.length = v1212.length ∧
      ((∀ body : Nat → Nat → Sums → Option Sums,
          (∀ i j s, i < j → j < v1122.length → (body i j s).isSome = true) →
          ∀ s, (outerLoop body v1122.length v1122.length 0 s).isSome = true) ∧
        (∀ i j, i < j → j < v1122.length →
          (v1122[i]?).isSome = true ∧ (v1122[j]?).isSome = true ∧
          (v1212[i]?).isSome = true ∧ (v1212[j]?).isSome = true) ∧
        (dotProducts v1122 v1212).isSome = true ∧ (similarityRcpp v1122 v1212).isSome = true) :=
  ⟨rfl, reads_in_bounds v1122 v1212 rfl⟩

theorem dotProducts_length_le_one (l1 l2 : List Dbl) (h : l1.length ≤ 1) :
    dotProducts l1 l2 = some { dot_c1c1 := 0, dot_c2c2 := 0, dot_c1c2 := 0 } := by
  unfold dotProducts
  simp only
  have hq : l1.length = 0 ∨ l1.length = 1 := by omega
  rcases hq with hq | hq <;> rw [hq] <;> simp [outerLoop, innerLoop]

/-- C16. The loop bound is the length of `l1` alone.  When `l1` is not longer
than `l2`, every read is inside both vectors, a value is returned, and it is the
value returned for `l1` and the first `l1.length` labels of `l2`.  At a visited
pair `i < j` the body fails exactly when `j` is outside `l2`, and the run reads
`l2` out of bounds exactly when `l2` is shorter than `l1` and `l1` has at least
two labels. -/
theorem l2_tail_ignored (l1 l2 : List Dbl) :
    (l1.length ≤ l2.length →
        (∀ i j, i < j → j < l1.length →
          (l1[i]?).isSome = true ∧ (l1[j]?).isSome = true ∧
          (l2[i]?).isSome = true ∧ (l2[j]?).isSome = true) ∧
        (similarityRcpp l1 l2).isSome = true ∧
        similarityRcpp l1 l2 = similarityRcpp l1 (l2.take l1.length)) ∧
      (∀ i j s, i < j → j < l1.length → (loopBody l1 l2 i j s = none ↔ l2.length ≤ j)) ∧
      (similarityRcpp l1 l2 = none ↔ l2.length < l1.length ∧ 2 ≤ l1.length) := by
  refine ⟨fun hle => ⟨?_, ?_, ?_⟩, ?_, ?_⟩
  · intro i j hij hj
    have hi : i < l1.length := by omega
    have hi2 : i < l2.length := by omega
    have hj2 : j < l2.length := by omega
    simp [List.getElem?_eq_getElem, hi, hj, hi2, hj2]
  · rw [similarityRcpp, dotProducts_eq l1 l2 hle]; rfl
  · rw [similarityRcpp, similarityRcpp, dotProducts_take l1 l2 hle]
  · intro i j s hij hj
    constructor
    · intro hnone
      by_contra hlt
      rw [loopBody_eq l1 l2 i j s (by omega) hj (by omega) (by omega)] at hnone
      exact Option.some_ne_none _ hnone
    · exact loopBody_none l1 l2 i j s
  · constructor
    · intro hnone
      by_contra hcon
      have hcases : l1.length ≤ l2.length ∨ l1.length ≤ 1 := by omega
      rcases hcases with hle | hle
      · rw [similarityRcpp, dotProducts_eq l1 l2 hle] at hnone
        exact Option.some_ne_none _ hnone
      · rw [similarityRcpp, dotProducts_length_le_one l1 l2 hle] at hnone
        exact Option.some_ne_none _ hnone
    · rintro ⟨hlt, h2⟩
      rw [similarityRcpp, dotProducts_none l1 l2 hlt h2]; rfl

theorem l2_tail_ignored_witness :
    (v112.length ≤ v1122.length →
        (∀ i j, i < j → j < v112.length →
          (v112[i]?).isSome = true ∧ (v112[j]?).isSome = true ∧
          (v1122[i]?).isSome = true ∧ (v1122[j]?).isSome = true) ∧
        (similarityRcpp v112 v1122).isSome = true ∧
        similarityRcpp v112 v1122 = similarityRcpp v112 (v1122.take v112.length)) ∧
      (∀ i j s, i < j → j < v112.length → (loopBody v112 v1122 i j s = none ↔ v1122.length ≤ j)) ∧
      (similarityRcpp v112 v1122 = none ↔ v1122.length < v112.length ∧ 2 ≤ v112.length) :=
  l2_tail_ignored v112 v1122

/-! ## Reordering the items -/

theorem length_permute {q : Nat} (σ : Equiv.Perm (Fin q)) (l : List Dbl) (h : l.length = q) :
    (permute σ l h).length = q := by
  simp [permute]

theorem getElem?_permute {q : Nat} (σ : Equiv.Perm (Fin q)) (l : List Dbl) (h : l.length = q)
    (k : Fin q) : (permute σ l h)[(k : ℕ)]? = l[((σ k : Fin q) : ℕ)]? := by
  have hk : (k : ℕ) < (permute σ l h).length := by rw [length_permute]; exact k.isLt
  have hσ : ((σ k : Fin q) : ℕ) < l.length := by rw [h]; exact (σ k).isLt
  rw [List.getElem?_eq_getElem hk, List.getElem?_eq_getElem hσ]
  simp [permute, List.getElem_ofFn]

theorem ind_permute {q : Nat} (σ : Equiv.Perm (Fin q)) (l : List Dbl) (h : l.length = q)
    (i j : Fin q) :
    ind (permute σ l h) i j = ind l ((σ i : Fin q) : ℕ) ((σ j : Fin q) : ℕ) := by
  simp only [ind, comember, getElem?_permute]

theorem upperSum_two_mul_fin (q : Nat) (a : Nat → Nat → ℚ) (hs : ∀ i j, a i j = a j i) :
    upperSum q (fun i j => 2 * a i j) =
      ∑ i : Fin q, ∑ j : Fin q, if (i : ℕ) ≠ (j : ℕ) then a i j else 0 := by
  rw [upperSum_two_mul q a hs, Finset.sum_range]
  refine Finset.sum_congr rfl fun i _ => ?_
  rw [Finset.sum_range]

/-- Reading a symmetric summand through a permutation of the positions does not
change its sum over the visited pairs. -/
theorem upperSum_perm (q : Nat) (σ : Equiv.Perm (Fin q)) (a b : Nat → Nat → ℚ)
    (hsa : ∀ i j, a i j = a j i) (hsb : ∀ i j, b i j = b j i)
    (hab : ∀ i j : Fin q, b i j = a ((σ i : Fin q) : ℕ) ((σ j : Fin q) : ℕ)) :
    upperSum q (fun i j => 2 * b i j) = upperSum q (fun i j => 2 * a i j) := by
  rw [upperSum_two_mul_fin q a hsa, upperSum_two_mul_fin q b hsb]
  have hg : ∀ i j : Fin q, (if (i : ℕ) ≠ (j : ℕ) then b i j else 0) =
      (fun x y : Fin q => if (x : ℕ) ≠ (y : ℕ) then a x y else 0) (σ i) (σ j) := by
    intro i j
    have hiff : ((i : ℕ) ≠ (j : ℕ)) ↔ (((σ i : Fin q) : ℕ) ≠ ((σ j : Fin q) : ℕ)) := by
      rw [Ne, Ne, Fin.val_inj, Fin.val_inj, σ.injective.eq_iff]
    simp only [hab i j, hiff]
  simp only [hg]
  rw [← Equiv.sum_comp σ (fun x : Fin q =>
    ∑ y : Fin q, if (x : ℕ) ≠ (y : ℕ) then a x y else 0)]
  refine Finset.sum_congr rfl fun i _ => ?_
  exact Equiv.sum_comp σ (fun y : Fin q => if ((σ i : Fin q) : ℕ) ≠ (y : ℕ) then a (σ i) y else 0)

theorem upperSum_fin_congr (q : Nat) (a b : Nat → Nat → ℚ)
    (h : ∀ i j : Fin q, a i j = b i j) : upperSum q a = upperSum q b :=
  upperSum_congr q a b fun i j hij hj => h ⟨i, by omega⟩ ⟨j, hj⟩

theorem dotProducts_permute {q : Nat} (σ : Equiv.Perm (Fin q)) (l1 l2 : List Dbl)
    (h1 : l1.length = q) (h2 : l2.length = q) :
    dotProducts (permute σ l1 h1) (permute σ l2 h2) = dotProducts l1 l2 := by
  rw [dotProducts_eq l1 l2 (by omega),
    dotProducts_eq (permute σ l1 h1) (permute σ l2 h2) (by simp [length_permute]),
    length_permute, h1]
  have e1 := upperSum_perm q σ (ind l1) (ind (permute σ l1 h1)) (ind_comm l1)
    (ind_comm _) (ind_permute σ l1 h1)
  have e2 := upperSum_perm q σ (ind l2) (ind (permute σ l2 h2)) (ind_comm l2)
    (ind_comm _) (ind_permute σ l2 h2)
  have e12 := upperSum_perm q σ (fun i j => ind l1 i j * ind l2 i j)
    (fun i j => ind (permute σ l1 h1) i j * ind (permute σ l2 h2) i j)
    (fun i j => by simp only [ind_comm l1 i j, ind_comm l2 i j])
    (fun i j => by simp only [ind_comm (permute σ l1 h1) i j, ind_comm (permute σ l2 h2) i j])
    (fun i j => by simp only [ind_permute])
  simp only [← mul_assoc] at e12
  rw [e1, e2, e12]

/-- C17. Item order does not matter when both vectors are reordered together:
for label vectors of the same length `q` and every permutation `σ` of `[0, q)`,
`similarityRcpp` of the two reordered vectors is `similarityRcpp l1 l2`. -/
theorem similarityRcpp_permute {q : Nat} (σ : Equiv.Perm (Fin q)) (l1 l2 : List Dbl)
    (h1 : l1.length = q) (h2 : l2.length = q) :
    similarityRcpp (permute σ l1 h1) (permute σ l2 h2) = similarityRcpp l1 l2 := by
  rw [similarityRcpp, similarityRcpp, dotProducts_permute σ l1 l2 h1 h2]

theorem similarityRcpp_permute_witness :
    v1122.length = 4 ∧ v1212.length = 4 ∧
      permute (Equiv.swap (0 : Fin 4) 3) v1122 rfl = [.fin 2, .fin 1, .fin 2, .fin 1] ∧
      permute (Equiv.swap (0 : Fin 4) 3) v1212 rfl = [.fin 2, .fin 2, .fin 1, .fin 1] ∧
      similarityRcpp (permute (Equiv.swap (0 : Fin 4) 3) v1122 rfl)
          (permute (Equiv.swap (0 : Fin 4) 3) v1212 rfl) =
        similarityRcpp v1122 v1212 :=
  ⟨rfl, rfl, by decide, by decide,
    similarityRcpp_permute (Equiv.swap (0 : Fin 4) 3) v1122 v1212 rfl rfl⟩

/-! ## When the similarity is `1` and when it is `0` -/

theorem upperSum_sub (q : Nat) (a b : Nat → Nat → ℚ) :
    upperSum q (fun i j => a i j - b i j) = upperSum q a - upperSum q b := by
  simp only [upperSum, Finset.sum_sub_distrib]

theorem upperSum_eq_zero_iff (q : Nat) (a : Nat → Nat → ℚ)
    (h : ∀ i j, i < j → j < q → 0 ≤ a i j) :
    upperSum q a = 0 ↔ ∀ i j, i < j → j < q → a i j = 0 := by
  constructor
  · intro hz i j hij hj
    have hle := le_upperSum q a h i j hij hj
    rw [hz] at hle
    exact le_antisymm hle (h i j hij hj)
  · intro hall
    rw [← upperSum_zero q]
    exact upperSum_congr q a _ hall

/-- The returned quotient is `1` exactly when the three sums coincide and are at
least `1`, for sums ordered as the loop orders them. -/
theorem correlation_eq_one_iff (s : Sums) (h0 : 0 ≤ s.dot_c1c2)
    (h1 : s.dot_c1c2 ≤ s.dot_c1c1) (h2 : s.dot_c1c2 ≤ s.dot_c2c2) :
    correlation s = 1 ↔
      s.dot_c1c1 = s.dot_c1c2 ∧ s.dot_c2c2 = s.dot_c1c2 ∧ 1 ≤ s.dot_c1c2 := by
  rw [correlation_eq_sqrt]
  have h0r : (0 : ℝ) ≤ (s.dot_c1c2 : ℝ) := by exact_mod_cast h0
  have h1r : (s.dot_c1c2 : ℝ) ≤ (s.dot_c1c1 : ℝ) := by exact_mod_cast h1
  have h2r : (s.dot_c1c2 : ℝ) ≤ (s.dot_c2c2 : ℝ) := by exact_mod_cast h2
  have hpos : (0 : ℝ) < max 1 (Real.sqrt ((s.dot_c1c1 : ℝ) * (s.dot_c2c2 : ℝ))) :=
    lt_of_lt_of_le one_pos (le_max_left _ _)
  rw [div_eq_one_iff_eq hpos.ne']
  constructor
  · intro heq
    have hge1 : (1 : ℝ) ≤ (s.dot_c1c2 : ℝ) := by rw [heq]; exact le_max_left _ _
    have hsq : Real.sqrt ((s.dot_c1c1 : ℝ) * (s.dot_c2c2 : ℝ)) ≤ (s.dot_c1c2 : ℝ) := by
      rw [heq]; exact le_max_right _ _
    have hprod : (s.dot_c1c1 : ℝ) * (s.dot_c2c2 : ℝ) ≤ (s.dot_c1c2 : ℝ) ^ 2 :=
      ((Real.sqrt_le_iff).mp hsq).2
    have e1 : (s.dot_c1c1 : ℝ) = (s.dot_c1c2 : ℝ) := by
      by_contra hne
      have hlt : (s.dot_c1c2 : ℝ) < (s.dot_c1c1 : ℝ) := lt_of_le_of_ne h1r (Ne.symm hne)
      nlinarith
    have e2 : (s.dot_c2c2 : ℝ) = (s.dot_c1c2 : ℝ) := by
      by_contra hne
      have hlt : (s.dot_c1c2 : ℝ) < (s.dot_c2c2 : ℝ) := lt_of_le_of_ne h2r (Ne.symm hne)
      nlinarith
    exact ⟨by exact_mod_cast e1, by exact_mod_cast e2, by exact_mod_cast hge1⟩
  · rintro ⟨e1, e2, hge⟩
    have hge1 : (1 : ℝ) ≤ (s.dot_c1c2 : ℝ) := by exact_mod_cast hge
    rw [e1, e2, Real.sqrt_mul_self h0r, max_eq_right hge1]

theorem correlation_eq_zero_iff (s : Sums) : correlation s = 0 ↔ s.dot_c1c2 = 0 := by
  have hpos : (0 : ℝ) < divisor s := lt_of_lt_of_le one_pos (le_max_left _ _)
  rw [correlation, div_eq_zero_iff]
  constructor
  · rintro (h | h)
    · exact_mod_cast h
    · exact absurd h hpos.ne'
  · intro h
    left
    exact_mod_cast h

theorem boolToDouble_sub_eq_zero (a b : Bool)
    (h : 2 * boolToDouble a - 2 * boolToDouble a * boolToDouble b = 0) (ha : a = true) :
    b = true := by
  cases a <;> cases b <;> simp_all [boolToDouble]

theorem boolToDouble_sub_nonneg (a b : Bool) :
    0 ≤ 2 * boolToDouble a - 2 * boolToDouble a * boolToDouble b := by
  cases a <;> cases b <;> simp [boolToDouble]

/-- A self sum equal to the cross sum means that every pair co-membered in the
one vector is co-membered in the other. -/
theorem comember_imp_of_sum_eq (la lb : List Dbl) (q : Nat)
    (h : upperSum q (fun i j => 2 * ind la i j) =
      upperSum q (fun i j => 2 * ind la i j * ind lb i j))
    (i j : Nat) (hij : i < j) (hj : j < q) (ha : comember la i j = true) :
    comember lb i j = true := by
  have hz : upperSum q (fun i j => 2 * ind la i j - 2 * ind la i j * ind lb i j) = 0 := by
    rw [upperSum_sub q (fun i j => 2 * ind la i j) (fun i j => 2 * ind la i j * ind lb i j), h,
      sub_self]
  have hterm := (upperSum_eq_zero_iff q _
    (fun i j _ _ => boolToDouble_sub_nonneg (comember la i j) (comember lb i j))).mp hz i j hij hj
  exact boolToDouble_sub_eq_zero _ _ hterm ha

/-- C18. For equal-length label vectors, `similarityRcpp` returns `1` exactly
when the two vectors induce the same co-membership relation on the pairs
`i < j` and at least one such pair is co-membered, and it returns `0` exactly
when no pair `i < j` is co-membered in both vectors. -/
theorem similarityRcpp_eq_one_and_eq_zero_iff (l1 l2 : List Dbl)
    (h : l1.length = l2.length) :
    (similarityRcpp l1 l2 = some 1 ↔
        (∀ i j, i < j → j < l1.length → comember l1 i j = comember l2 i j) ∧
        ∃ i j, i < j ∧ j < l1.length ∧ comember l1 i j = true) ∧
      (similarityRcpp l1 l2 = some 0 ↔
        ∀ i j, i < j → j < l1.length →
          ¬ (comember l1 i j = true ∧ comember l2 i j = true)) := by
  obtain ⟨h0, h1, h2⟩ := closedForm_bounds l1 l2 l1.length
  have hd := dotProducts_eq l1 l2 h.le
  have hnn : ∀ i j, i < j → j < l1.length → 0 ≤ 2 * ind l1 i j * ind l2 i j := by
    intro i j _ _
    have := ind_nonneg l1 i j
    have := ind_nonneg l2 i j
    positivity
  have hsim : similarityRcpp l1 l2 = some (correlation
      { dot_c1c1 := upperSum l1.length (fun i j => 2 * ind l1 i j)
        dot_c2c2 := upperSum l1.length (fun i j => 2 * ind l2 i j)
        dot_c1c2 := upperSum l1.length (fun i j => 2 * ind l1 i j * ind l2 i j) }) := by
    rw [similarityRcpp, hd]; rfl
  have hone := correlation_eq_one_iff
    { dot_c1c1 := upperSum l1.length (fun i j => 2 * ind l1 i j)
      dot_c2c2 := upperSum l1.length (fun i j => 2 * ind l2 i j)
      dot_c1c2 := upperSum l1.length (fun i j => 2 * ind l1 i j * ind l2 i j) } h0 h1 h2
  have hzero := correlation_eq_zero_iff
    { dot_c1c1 := upperSum l1.length (fun i j => 2 * ind l1 i j)
      dot_c2c2 := upperSum l1.length (fun i j => 2 * ind l2 i j)
      dot_c1c2 := upperSum l1.length (fun i j => 2 * ind l1 i j * ind l2 i j) }
  simp only at hone hzero
  rw [hsim, Option.some_inj, Option.some_inj, hone, hzero]
  constructor
  · constructor
    · rintro ⟨e1, e2, hge⟩
      have e2' : upperSum l1.length (fun i j => 2 * ind l2 i j) =
          upperSum l1.length (fun i j => 2 * ind l2 i j * ind l1 i j) := by
        rw [e2]
        exact upperSum_congr _ _ _ fun i j _ _ => by ring
      refine ⟨fun i j hij hj => ?_, ?_⟩
      · have f12 := comember_imp_of_sum_eq l1 l2 l1.length e1 i j hij hj
        have f21 := comember_imp_of_sum_eq l2 l1 l1.length e2' i j hij hj
        cases hc1 : comember l1 i j <;> cases hc2 : comember l2 i j <;> simp_all
      · by_contra hcon
        push_neg at hcon
        have hz : upperSum l1.length (fun i j => 2 * ind l1 i j * ind l2 i j) = 0 := by
          rw [upperSum_eq_zero_iff _ _ hnn]
          intro i j hij hj
          have hf : comember l1 i j = false := by
            cases hc : comember l1 i j
            · rfl
            · exact absurd hc (hcon i j hij hj)
          simp [ind, hf, boolToDouble]
        rw [hz] at hge
        norm_num at hge
    · rintro ⟨hsame, i, j, hij, hj, hc⟩
      have e1 : upperSum l1.length (fun i j => 2 * ind l1 i j) =
          upperSum l1.length (fun i j => 2 * ind l1 i j * ind l2 i j) :=
        upperSum_congr _ _ _ fun i j hij hj => by
          rw [mul_assoc]
          simp only [ind, ← hsame i j hij hj, boolToDouble_mul_self]
      have e2 : upperSum l1.length (fun i j => 2 * ind l2 i j) =
          upperSum l1.length (fun i j => 2 * ind l1 i j * ind l2 i j) :=
        upperSum_congr _ _ _ fun i j hij hj => by
          rw [mul_assoc]
          simp only [ind, hsame i j hij hj, boolToDouble_mul_self]
      refine ⟨e1, e2, ?_⟩
      have hterm := le_upperSum l1.length (fun i j => 2 * ind l1 i j * ind l2 i j) hnn i j hij hj
      have hc2 : comember l2 i j = true := by rw [← hsame i j hij hj]; exact hc
      have hval : (2 : ℚ) * ind l1 i j * ind l2 i j = 2 := by
        simp [ind, hc, hc2, boolToDouble]
      simp only [hval] at hterm
      linarith
  · rw [upperSum_eq_zero_iff _ _ hnn]
    refine forall_congr' fun i => forall_congr' fun j => forall_congr' fun _ =>
      forall_congr' fun _ => ?_
    simp only [ind]
    cases comember l1 i j <;> cases comember l2 i j <;> simp [boolToDouble]

theorem similarityRcpp_eq_one_and_eq_zero_iff_witness :
    v1122.length = v1212.length ∧
      ((similarityRcpp v1122 v1212 = some 1 ↔
          (∀ i j, i < j → j < v1122.length → comember v1122 i j = comember v1212 i j) ∧
          ∃ i j, i < j ∧ j < v1122.length ∧ comember v1122 i j = true) ∧
        (similarityRcpp v1122 v1212 = some 0 ↔
          ∀ i j, i < j → j < v1122.length →
            ¬ (comember v1122 i j = true ∧ comember v1212 i j = true))) :=
  ⟨rfl, similarityRcpp_eq_one_and_eq_zero_iff v1122 v1212 rfl⟩

end Similarity
